import Mathlib

/-!
Shallow embedding of the weighted wallpaper-rotation engine (lianwall):
the catalog data model, the selector (`select`, `select_with_jitter`),
the weight engine (`update_weights_zero_sum`, `auto_normalize`, `apply_shuffle`),
and the catalog scanner/merger (`load_and_scan`) together with the rotation
controller's weight update (`update_weights`, `set_wallpaper`, `pick_next`).

Modelling conventions: `f64` scores are embedded as `ℚ` (the claims speak of
exact real arithmetic); `PathBuf` as `String`; `SystemTime` as seconds since
the Unix epoch (`Nat`); the thread-local random generator is passed in as
explicit draw functions, with the range constraints of `gen_range` appearing
as hypotheses.
-/

namespace LianWall

/-- Embeds `Wallpaper` from `manager.rs`: path, score (`value`), consecutive
skip count and optional last-played timestamp. -/
structure Wallpaper where
  path : String
  value : ℚ
  skip_streak : Nat
  last_played : Option Nat
deriving DecidableEq

instance : Inhabited Wallpaper := ⟨⟨"", 0, 0, none⟩⟩

/-- Embeds `WeightConfig` from `config.rs`. -/
structure WeightConfig where
  base : ℚ
  select_penalty : ℚ
  perturbation_ratio : ℚ
  normalization_threshold : ℚ
  normalization_target : ℚ
  shuffle_period : Nat
  shuffle_intensity : ℚ
deriving DecidableEq

/-- Embeds `WeightCalculator` from `algorithm/weight.rs`: the tuning
parameters plus the selection counter driving the shuffle period. -/
structure WeightCalculator where
  config : WeightConfig
  selection_count : Nat
deriving DecidableEq

/-- Sum of the `value` fields of a catalog (the quantity conserved by the
zero-sum update). -/
def sumValues (l : List Wallpaper) : ℚ :=
  (l.map (fun w => w.value)).sum

/-! ### Selector (`algorithm/selector.rs`) -/

/-- Embeds the `sort_by` call of `WallpaperSelector::select`: a stable sort
by descending `value` (comparator `b.value.partial_cmp(&a.value)`). -/
def sortDesc (walls : List Wallpaper) : List Wallpaper :=
  walls.mergeSort (fun a b => decide (b.value ≤ a.value))

/-- Embeds the `top_indices` computation shared by `select` and
`select_with_jitter`: indices of the sorted catalog whose value lies within
`tolerance` of the maximum. -/
def topIndices (sorted : List Wallpaper) (maxValue tolerance : ℚ) : List Nat :=
  (sorted.enum.filter (fun p => decide (|maxValue - p.2.value| ≤ tolerance))).map
    (fun p => p.1)

/-- Embeds `WallpaperSelector::select`. The Rust function sorts its slice in
place and returns an index; the embedding returns the reordered catalog
together with the optional index. -/
def select (walls : List Wallpaper) (tolerance : ℚ) : List Wallpaper × Option Nat :=
  if walls.isEmpty then (walls, none)
  else
    let sorted := sortDesc walls
    let maxValue := (sorted.headD default).value
    let tops := topIndices sorted maxValue tolerance
    if tops.isEmpty then (sorted, some 0)
    else (sorted, some (tops.getD (tops.length / 2) 0))

/-- Embeds `WallpaperSelector::select_with_jitter`; `draw n` models
`rng.gen_range(0..n)` (so a faithful generator satisfies `draw n < n` for
`0 < n`). -/
def select_with_jitter (draw : Nat → Nat) (walls : List Wallpaper) (tolerance : ℚ) :
    List Wallpaper × Option Nat :=
  if walls.isEmpty then (walls, none)
  else
    let sorted := sortDesc walls
    let maxValue := (sorted.headD default).value
    let tops := topIndices sorted maxValue tolerance
    if tops.isEmpty then (sorted, some 0)
    else (sorted, some (tops.getD (draw tops.length) 0))

/-! ### Weight engine (`algorithm/weight.rs`) -/

/-- Embeds `WeightCalculator::calculate_initial_weight`. -/
def calculate_initial_weight (config : WeightConfig) (file_age_ratio : ℚ) : ℚ :=
  let min_weight := config.base - 20
  let max_weight := config.base + 20
  max_weight - file_age_ratio * (max_weight - min_weight)

/-- Embeds `WeightCalculator::auto_normalize`: when the average value exceeds
the threshold, every value is scaled by `normalization_target / avg`. -/
def auto_normalize (wcalc : WeightCalculator) (wallpapers : List Wallpaper) :
    List Wallpaper :=
  if wallpapers.isEmpty then wallpapers
  else
    let total := sumValues wallpapers
    let avg := total / wallpapers.length
    if wcalc.config.normalization_threshold < avg then
      let scale_factor := wcalc.config.normalization_target / avg
      wallpapers.map (fun w => { w with value := w.value * scale_factor })
    else wallpapers

/-- Embeds `indices.swap(i, j)` on the index vector of `apply_shuffle`. -/
def swapIdx (l : List Nat) (i j : Nat) : List Nat :=
  (l.set i (l.getD j 0)).set j (l.getD i 0)

/-- Embeds the Fisher-Yates loop of `apply_shuffle`:
`for i in (1..len).rev() { indices.swap(i, rng.gen_range(0..=i)) }`, the
draw at step `i` being `jdraw i` (a faithful generator satisfies
`jdraw i ≤ i`). The first argument is the loop's starting index `len - 1`. -/
def fisherYatesGo (jdraw : Nat → Nat) : Nat → List Nat → List Nat
  | 0, l => l
  | i + 1, l => fisherYatesGo jdraw i (swapIdx l (i + 1) (jdraw (i + 1)))

/-- Embeds one iteration of the reset loop of
`WeightCalculator::apply_shuffle`:
`wallpapers[indices[i]].value = base * (1.0 + random_offset)` and
`wallpapers[indices[i]].skip_streak = 0`, the offset draw of iteration `i`
being `offs i`. -/
def shuffleStep (base : ℚ) (offs : Nat → ℚ) (indices : List Nat)
    (acc : List Wallpaper) (i : Nat) : List Wallpaper :=
  let idx := indices.getD i 0
  match acc[idx]? with
  | some w => acc.set idx { w with value := base * (1 + offs i), skip_streak := 0 }
  | none => acc

/-- Embeds `WeightCalculator::apply_shuffle`: resets the first
`shuffle_count` positions of the Fisher-Yates permuted index list to a
random value near `base`; `offs i` models the draw
`rng.gen_range(-0.2..0.2)` of loop iteration `i`. -/
def apply_shuffle (wcalc : WeightCalculator) (jdraw : Nat → Nat) (offs : Nat → ℚ)
    (wallpapers : List Wallpaper) : List Wallpaper :=
  if wallpapers.isEmpty ∨ wcalc.config.shuffle_intensity ≤ 0 then wallpapers
  else
    let shuffle_count :=
      min (Int.toNat ⌈(wallpapers.length : ℚ) * wcalc.config.shuffle_intensity⌉)
        wallpapers.length
    if shuffle_count = 0 then wallpapers
    else
      let indices := fisherYatesGo jdraw (wallpapers.length - 1)
        (List.range wallpapers.length)
      (List.range shuffle_count).foldl
        (shuffleStep wcalc.config.base offs indices) wallpapers

/-- Embeds the `iter_mut().enumerate()` loop of
`WeightCalculator::update_weights_zero_sum`: the item at `selected_index`
loses `penalty` and has its streak reset; every other item gains `reward`
and has its streak incremented. `idx` is the running enumeration index. -/
def updateLoop (penalty reward : ℚ) (selected_index : Nat) :
    Nat → List Wallpaper → List Wallpaper
  | _, [] => []
  | idx, w :: rest =>
    (if idx = selected_index then
      { w with value := w.value - penalty, skip_streak := 0 }
    else
      { w with value := w.value + reward, skip_streak := w.skip_streak + 1 })
    :: updateLoop penalty reward selected_index (idx + 1) rest

/-- Embeds `WeightCalculator::update_weights_zero_sum`: the zero-sum
redistribution, the selection-counter increment, the conditional shuffle and
the normalization check, returning the updated calculator and catalog. -/
def update_weights_zero_sum (wcalc : WeightCalculator) (jdraw : Nat → Nat)
    (offs : Nat → ℚ) (wallpapers : List Wallpaper) (selected_index : Nat) :
    WeightCalculator × List Wallpaper :=
  if wallpapers.isEmpty then (wcalc, wallpapers)
  else
    let penalty := wcalc.config.select_penalty
    let other_count := wallpapers.length - 1
    if other_count = 0 then (wcalc, wallpapers)
    else
      let reward_per_wallpaper := penalty / (other_count : ℚ)
      let updated := updateLoop penalty reward_per_wallpaper selected_index 0 wallpapers
      let calc2 : WeightCalculator :=
        { wcalc with selection_count := wcalc.selection_count + 1 }
      let shuffled :=
        if calc2.config.shuffle_period ≠ 0 ∧
            calc2.selection_count % calc2.config.shuffle_period = 0 then
          apply_shuffle calc2 jdraw offs updated
        else updated
      (calc2, auto_normalize calc2 shuffled)

/-! ### Catalog scanner/merger and rotation controller (`manager.rs`) -/

/-- Embeds `SystemTime::duration_since` on epoch-second timestamps: defined
when `earlier ≤ later`, returning the difference in seconds as a rational. -/
def durationSinceSecs (later earlier : Nat) : Option ℚ :=
  if earlier ≤ later then some ((later : ℚ) - (earlier : ℚ)) else none

/-- Embeds one insertion into the `cached_map` `HashMap`: a later entry with
an existing path overwrites it, a fresh path is added. -/
def mapInsert (m : List Wallpaper) (w : Wallpaper) : List Wallpaper :=
  if m.any (fun x => x.path == w.path) then
    m.map (fun x => if x.path == w.path then w else x)
  else m ++ [w]

/-- Embeds the `cached_map` construction of `load_and_scan`: collecting the
cached list into a path-keyed map, later duplicates overwriting earlier. -/
def cachedEntries (cached : List Wallpaper) : List Wallpaper :=
  cached.foldl mapInsert []

/-- Embeds `cached_map.get(&path)`. -/
def cachedLookup (m : List Wallpaper) (p : String) : Option Wallpaper :=
  m.find? (fun w => w.path == p)

/-- Embeds the `(oldest, newest)` fold of `load_and_scan` exactly as written,
starting from `(UNIX_EPOCH, now)`: the first component keeps the accumulator
when `mtime < oldest` and otherwise takes `mtime`; the second keeps the
accumulator when `mtime > newest` and otherwise takes `mtime`. -/
def foldOldestNewest (scanned : List (String × Nat)) (now : Nat) : Nat × Nat :=
  scanned.foldl
    (fun p f =>
      (if f.2 < p.1 then p.1 else f.2, if f.2 > p.2 then p.2 else f.2))
    (0, now)

/-- Embeds `WallManager::load_and_scan` given the parsed cache contents and
the scanned `(path, mtime)` pairs; `prev` is the manager's in-memory catalog
before the call (`Vec::new()` at process start), which the early return on an
empty scan leaves untouched. -/
def load_and_scan (config : WeightConfig) (cached : List Wallpaper)
    (scanned : List (String × Nat)) (now : Nat) (prev : List Wallpaper) :
    List Wallpaper :=
  if scanned.isEmpty then prev
  else
    let cached_map := cachedEntries cached
    let oldestNewest := foldOldestNewest scanned now
    let oldest := oldestNewest.1
    let newest := oldestNewest.2
    let time_range := max ((durationSinceSecs newest oldest).getD 1) 1
    let avg_value :=
      if cached_map.isEmpty then config.base
      else sumValues cached_map / cached_map.length
    scanned.map (fun f =>
      match cachedLookup cached_map f.1 with
      | some cached_wallpaper => cached_wallpaper
      | none =>
        let file_age := (durationSinceSecs newest f.2).getD 0
        let age_ratio := file_age / time_range
        let time_based_weight := calculate_initial_weight config age_ratio
        let initial_value := (avg_value + time_based_weight) / 2
        { path := f.1, value := initial_value, skip_streak := 0,
          last_played := none })

/-- Modelled from the spec: the initial score §4.1 prescribes for a newly
discovered file, `(avg + W(age_ratio)) / 2` with
`age_ratio = (newest - file_mtime) / max(newest - oldest, 1)` computed from
the true minimum and maximum modification times. Kept separate from
`load_and_scan` so the code's fold can be compared against the spec's
formula. -/
def specInitialValue (config : WeightConfig) (avg : ℚ) (oldestMtime newestMtime mtime : Nat) : ℚ :=
  let time_range := max ((newestMtime : ℚ) - (oldestMtime : ℚ)) 1
  let age_ratio := ((newestMtime : ℚ) - (mtime : ℚ)) / time_range
  (avg + calculate_initial_weight config age_ratio) / 2

/-- Embeds `WallManager::update_weights`. Modelled from the spec:
`WeightCalculator::apply_selection_penalty` and
`WeightCalculator::apply_skip_reward`, called here, are absent from the
sources (only this call site exists); the spec describes only their effect on
`value`, so they are abstracted as the parameters `applyPenalty` and
`applyReward`. The streak, timestamp and path-matching logic is embedded from
the code. -/
def update_weights (applyPenalty : ℚ → ℚ) (applyReward : ℚ → Nat → ℚ) (now : Nat)
    (selected_path : String) (wallpapers : List Wallpaper) : List Wallpaper :=
  wallpapers.map (fun w =>
    if w.path = selected_path then
      { w with
        value := applyPenalty w.value
        skip_streak := 0
        last_played := some now }
    else
      { w with
        value := applyReward w.value w.skip_streak
        skip_streak := w.skip_streak + 1 })

/-- Embeds `WallManager::set_wallpaper`: the engine call's outcome for this
rotation is passed in as `engineResult`; the `?` operator propagates a render
failure before `update_weights` runs, so the catalog is returned unchanged in
that case. -/
def set_wallpaper (engineResult : Except String Unit) (applyPenalty : ℚ → ℚ)
    (applyReward : ℚ → Nat → ℚ) (now : Nat) (wallpaper : Wallpaper)
    (wallpapers : List Wallpaper) : List Wallpaper × Except String Unit :=
  match engineResult with
  | Except.error e => (wallpapers, Except.error e)
  | Except.ok _ =>
    (update_weights applyPenalty applyReward now wallpaper.path wallpapers,
      Except.ok ())

/-- Embeds `WallManager::pick_next`: `None` on an empty catalog, otherwise
the selected item of the reordered catalog. -/
def pick_next (wallpapers : List Wallpaper) : List Wallpaper × Option Wallpaper :=
  if wallpapers.isEmpty then (wallpapers, none)
  else
    let r := select wallpapers 5
    match r.2 with
    | none => (r.1, none)
    | some idx => (r.1, some (r.1.getD idx default))


/-! ### Shared configuration and helper lemmas -/

/-- Default weight configuration of `config.rs` (`Config::default`). -/
def defaultConfig : WeightConfig :=
  ⟨100, 10, 3 / 100, 500, 100, 100, 1 / 10⟩

lemma sumValues_nil : sumValues [] = 0 := rfl

lemma sumValues_cons (w : Wallpaper) (l : List Wallpaper) :
    sumValues (w :: l) = w.value + sumValues l := by
  simp [sumValues]

lemma topIndices_lt (sorted : List Wallpaper) (maxValue tolerance : ℚ) :
    ∀ x ∈ topIndices sorted maxValue tolerance, x < sorted.length := by
  intro x hx
  have hsub : List.Sublist (topIndices sorted maxValue tolerance)
      (sorted.enum.map Prod.fst) :=
    List.Sublist.map _ (List.filter_sublist _)
  have : x ∈ sorted.enum.map Prod.fst := hsub.mem hx
  rw [List.enum_map_fst] at this
  exact List.mem_range.mp this

lemma select_fst_perm (walls : List Wallpaper) (tolerance : ℚ) :
    List.Perm (select walls tolerance).1 walls := by
  by_cases h : walls.isEmpty
  · simp [select, h]
  · simp only [select, h, Bool.false_eq_true, if_false]
    have hp : List.Perm (sortDesc walls) walls := List.mergeSort_perm walls _
    split <;> exact hp

lemma select_idx_lt (walls : List Wallpaper) (tolerance : ℚ) (i : Nat)
    (h : (select walls tolerance).2 = some i) : i < walls.length := by
  by_cases he : walls.isEmpty
  · simp [select, he] at h
  · have hlen : (sortDesc walls).length = walls.length :=
      (List.mergeSort_perm walls _).length_eq
    have hnil : walls ≠ [] := by
      simpa [List.isEmpty_iff] using he
    have hpos : 0 < walls.length := List.length_pos.mpr hnil
    simp only [select, he, Bool.false_eq_true, if_false] at h
    set tops := topIndices (sortDesc walls) ((sortDesc walls).headD default).value
      tolerance with htops
    by_cases ht : tops.isEmpty
    · simp only [ht, if_true, Option.some.injEq] at h
      omega
    · simp only [ht, Bool.false_eq_true, if_false, Option.some.injEq] at h
      have htpos : 0 < tops.length :=
        List.length_pos.mpr (by simpa [List.isEmpty_iff] using ht)
      have hmem : tops.getD (tops.length / 2) 0 ∈ tops := by
        have hlt : tops.length / 2 < tops.length := Nat.div_lt_self htpos (by omega)
        rw [List.getD_eq_getElem?_getD, List.getElem?_eq_getElem hlt]
        exact List.getElem_mem hlt
      have := topIndices_lt (sortDesc walls) _ tolerance _ hmem
      omega

/-- C7: on the concrete catalog with scores 100 (a), 105 (b), 103 (c), 80 (d)
and tolerance 5, `select` sorts the catalog to descending order
[105 (b), 103 (c), 100 (a), 80 (d)], forms the tolerance band of indices
[0, 1, 2], and returns band index 3 / 2 = 1, i.e. item c with score 103. -/
theorem C7_selection_determinism :
    select [⟨"a", 100, 0, none⟩, ⟨"b", 105, 2, none⟩,
        ⟨"c", 103, 1, none⟩, ⟨"d", 80, 0, none⟩] 5 =
      ([⟨"b", 105, 2, none⟩, ⟨"c", 103, 1, none⟩,
        ⟨"a", 100, 0, none⟩, ⟨"d", 80, 0, none⟩], some 1) ∧
    topIndices (sortDesc [⟨"a", 100, 0, none⟩, ⟨"b", 105, 2, none⟩,
        ⟨"c", 103, 1, none⟩, ⟨"d", 80, 0, none⟩]) 105 5 = [0, 1, 2] ∧
    (sortDesc [⟨"a", 100, 0, none⟩, ⟨"b", 105, 2, none⟩,
        ⟨"c", 103, 1, none⟩, ⟨"d", 80, 0, none⟩]).getD 1 default
      = ⟨"c", 103, 1, none⟩ := by
  refine ⟨?_, ?_, ?_⟩ <;>
    norm_num [select, sortDesc, List.mergeSort, List.merge, topIndices,
      List.enum, List.enumFrom, List.filter]

/-- C4 counterexample: a concrete rotation in which the render adapter fails.
`set_wallpaper` reports the error but returns the catalog unchanged, and the
unchanged catalog differs from the catalog the weight update would have
produced, so the weight update is not applied on render failure. -/
theorem C4_counterexample :
    set_wallpaper (Except.error "fail") (fun v => v - 10) (fun v _ => v + 10) 7
        ⟨"a", 100, 0, none⟩ [⟨"a", 100, 0, none⟩, ⟨"b", 90, 1, none⟩]
      = ([⟨"a", 100, 0, none⟩, ⟨"b", 90, 1, none⟩], Except.error "fail") ∧
    (set_wallpaper (Except.error "fail") (fun v => v - 10) (fun v _ => v + 10) 7
        ⟨"a", 100, 0, none⟩ [⟨"a", 100, 0, none⟩, ⟨"b", 90, 1, none⟩]).1
      ≠ update_weights (fun v => v - 10) (fun v _ => v + 10) 7 "a"
        [⟨"a", 100, 0, none⟩, ⟨"b", 90, 1, none⟩] := by
  refine ⟨rfl, ?_⟩
  norm_num [set_wallpaper, update_weights]

/-- C4 (amended): when the render adapter's `set` call fails, the failure is
reported as the rotation's error and the catalog is left unchanged; the
weight update runs only when the render call succeeds. -/
theorem C4_render_failure_skips_update (e : String) (applyPenalty : ℚ → ℚ)
    (applyReward : ℚ → Nat → ℚ) (now : Nat) (w : Wallpaper)
    (walls : List Wallpaper) :
    set_wallpaper (Except.error e) applyPenalty applyReward now w walls
      = (walls, Except.error e) ∧
    set_wallpaper (Except.ok ()) applyPenalty applyReward now w walls
      = (update_weights applyPenalty applyReward now w.path walls,
        Except.ok ()) :=
  ⟨rfl, rfl⟩

/-- C3: evaluation of the merge at a two-file catalog with an empty store,
modification times 0 and 100 and current time 200, base score 100. The
spec's formula gives the oldest file (mtime 0) the initial score
(100 + 80) / 2 = 90 and the newest (mtime 100) the score
(100 + 120) / 2 = 110; the code's swapped min/max fold makes `age_ratio`
vanish for every file, so both files receive 110. -/
theorem C3_initial_weight_bug :
    load_and_scan defaultConfig [] [("pa", 0), ("pb", 100)] 200 []
      = [⟨"pa", 110, 0, none⟩, ⟨"pb", 110, 0, none⟩] ∧
    specInitialValue defaultConfig 100 0 100 0 = 90 ∧
    specInitialValue defaultConfig 100 0 100 100 = 110 ∧
    (110 : ℚ) ≠ 90 := by
  refine ⟨?_, ?_, ?_, by norm_num⟩ <;>
    norm_num [load_and_scan, cachedEntries, cachedLookup, foldOldestNewest,
      durationSinceSecs, calculate_initial_weight, sumValues, defaultConfig,
      mapInsert, specInitialValue, List.find?, List.foldl]

/-- C9: empty-catalog safety — `select` returns no index exactly on the empty
catalog, merging an empty scan result at process start (empty in-memory
catalog) yields the empty catalog without failing, and `pick_next` on an
empty catalog yields no wallpaper, so the rotation is skipped. -/
theorem C9_empty_catalog_safety :
    (∀ tolerance : ℚ, (select [] tolerance).2 = none) ∧
    (∀ (walls : List Wallpaper) (tolerance : ℚ), walls ≠ [] →
      ((select walls tolerance).2).isSome = true) ∧
    (∀ (config : WeightConfig) (cached : List Wallpaper) (now : Nat),
      load_and_scan config cached [] now [] = []) ∧
    pick_next [] = ([], none) := by
  refine ⟨fun tolerance => rfl, ?_, fun config cached now => rfl, rfl⟩
  intro walls tolerance hne
  have he : walls.isEmpty = false := by
    simpa [List.isEmpty_iff] using hne
  simp only [select, he, Bool.false_eq_true, if_false]
  split <;> rfl

/-- C9 witness: the safety statement instantiated at a singleton catalog,
the default configuration and concrete times. -/
theorem C9_witness :
    (select [] (5 : ℚ)).2 = none ∧
    ((select [⟨"a", 1, 0, none⟩] (5 : ℚ)).2).isSome = true ∧
    load_and_scan defaultConfig [] [] 3 [] = [] ∧
    pick_next [] = ([], none) := by
  have h := C9_empty_catalog_safety
  exact ⟨h.1 5, h.2.1 [⟨"a", 1, 0, none⟩] 5 (by decide), h.2.2.1 defaultConfig [] 3,
    h.2.2.2⟩

lemma getD_map_lt (f : Wallpaper → Wallpaper) (l : List Wallpaper) (k : Nat)
    (hk : k < l.length) : (l.map f).getD k default = f (l.getD k default) := by
  rw [List.getD_eq_getElem?_getD, List.getD_eq_getElem?_getD,
    List.getElem?_map, List.getElem?_eq_getElem hk]
  rfl

/-- C2: after the rotation controller's weight update for the item at a valid
index `i` (whose path is unique in the catalog), that item's streak is 0 and
its last-played timestamp is `now`, and every other item's streak grew by
exactly 1, for any penalty and reward functions. -/
theorem C2_streak_semantics (applyPenalty : ℚ → ℚ) (applyReward : ℚ → Nat → ℚ)
    (now : Nat) (walls : List Wallpaper) (i : Nat) (hi : i < walls.length)
    (huniq : ∀ j, j < walls.length → j ≠ i →
      (walls.getD j default).path ≠ (walls.getD i default).path) :
    ((update_weights applyPenalty applyReward now (walls.getD i default).path
        walls).getD i default).skip_streak = 0 ∧
    ((update_weights applyPenalty applyReward now (walls.getD i default).path
        walls).getD i default).last_played = some now ∧
    ∀ j, j < walls.length → j ≠ i →
      ((update_weights applyPenalty applyReward now (walls.getD i default).path
          walls).getD j default).skip_streak
        = (walls.getD j default).skip_streak + 1 := by
  refine ⟨?_, ?_, ?_⟩
  · rw [update_weights, getD_map_lt _ _ _ hi]
    simp
  · rw [update_weights, getD_map_lt _ _ _ hi]
    simp
  · intro j hj hji
    rw [update_weights, getD_map_lt _ _ _ hj, if_neg (huniq j hj hji)]

/-- C2 witness: the streak semantics at a concrete two-item catalog with the
item at index 0 selected. -/
theorem C2_witness :
    ((update_weights (fun v => v - 10) (fun v s => v + s) 7
        (([⟨"a", 100, 0, none⟩, ⟨"b", 90, 3, none⟩] :
          List Wallpaper).getD 0 default).path
        [⟨"a", 100, 0, none⟩, ⟨"b", 90, 3, none⟩]).getD 0 default).skip_streak
      = 0 ∧
    ((update_weights (fun v => v - 10) (fun v s => v + s) 7
        (([⟨"a", 100, 0, none⟩, ⟨"b", 90, 3, none⟩] :
          List Wallpaper).getD 0 default).path
        [⟨"a", 100, 0, none⟩, ⟨"b", 90, 3, none⟩]).getD 0 default).last_played
      = some 7 ∧
    ∀ j, j < ([⟨"a", 100, 0, none⟩, ⟨"b", 90, 3, none⟩] :
        List Wallpaper).length → j ≠ 0 →
      ((update_weights (fun v => v - 10) (fun v s => v + s) 7
          (([⟨"a", 100, 0, none⟩, ⟨"b", 90, 3, none⟩] :
            List Wallpaper).getD 0 default).path
          [⟨"a", 100, 0, none⟩, ⟨"b", 90, 3, none⟩]).getD j
            default).skip_streak
        = (([⟨"a", 100, 0, none⟩, ⟨"b", 90, 3, none⟩] :
            List Wallpaper).getD j default).skip_streak + 1 :=
  C2_streak_semantics (fun v => v - 10) (fun v s => v + s) 7
    [⟨"a", 100, 0, none⟩, ⟨"b", 90, 3, none⟩] 0 (by decide) (by decide)

lemma sumValues_scale (c : ℚ) (l : List Wallpaper) :
    sumValues (l.map (fun w => { w with value := w.value * c })) =
      sumValues l * c := by
  induction l with
  | nil => simp [sumValues]
  | cons w rest ih =>
    simp only [List.map_cons, sumValues_cons, ih]
    ring

/-- C6: for a non-empty catalog (with a non-negative threshold, as
configured), if the mean score strictly exceeds the normalization threshold
then `auto_normalize` multiplies every score by the factor
target / mean so the new mean equals the target, and otherwise it changes
no score. -/
theorem C6_normalization (wcalc : WeightCalculator) (walls : List Wallpaper)
    (hne : walls ≠ [])
    (hth : 0 ≤ wcalc.config.normalization_threshold) :
    (wcalc.config.normalization_threshold < sumValues walls / walls.length →
      auto_normalize wcalc walls
        = walls.map (fun w =>
            { w with value := w.value *
                (wcalc.config.normalization_target /
                  (sumValues walls / walls.length)) }) ∧
      sumValues (auto_normalize wcalc walls) /
          ((auto_normalize wcalc walls).length : ℚ)
        = wcalc.config.normalization_target) ∧
    (sumValues walls / walls.length ≤ wcalc.config.normalization_threshold →
      auto_normalize wcalc walls = walls) := by
  have he : walls.isEmpty = false := by simpa [List.isEmpty_iff] using hne
  constructor
  · intro h
    have heq : auto_normalize wcalc walls
        = walls.map (fun w =>
            { w with value := w.value *
                (wcalc.config.normalization_target /
                  (sumValues walls / walls.length)) }) := by
      simp only [auto_normalize, he, Bool.false_eq_true, if_false, if_pos h]
    refine ⟨heq, ?_⟩
    rw [heq, sumValues_scale, List.length_map]
    have hn : ((walls.length : ℚ)) ≠ 0 := by
      have : 0 < walls.length := List.length_pos.mpr hne
      positivity
    have havg : 0 < sumValues walls / walls.length := lt_of_le_of_lt hth h
    have hS : sumValues walls ≠ 0 := by
      intro h0
      rw [h0] at havg
      simp at havg
    field_simp
  · intro h
    simp only [auto_normalize, he, Bool.false_eq_true, if_false,
      if_neg (not_lt.mpr h)]

/-- C6 witness: normalization of a concrete two-item catalog with mean 520,
threshold 500 and target 100: every score is scaled by 100 / 520 and the new
mean is 100. -/
theorem C6_witness :
    auto_normalize ⟨defaultConfig, 0⟩
        [⟨"a", 520, 0, none⟩, ⟨"b", 520, 0, none⟩]
      = [⟨"a", 100, 0, none⟩, ⟨"b", 100, 0, none⟩] ∧
    sumValues (auto_normalize ⟨defaultConfig, 0⟩
        [⟨"a", 520, 0, none⟩, ⟨"b", 520, 0, none⟩]) / 2 = 100 := by
  have h := (C6_normalization ⟨defaultConfig, 0⟩
    [⟨"a", 520, 0, none⟩, ⟨"b", 520, 0, none⟩] (by decide) (by decide)).1
    (by norm_num [sumValues, defaultConfig])
  constructor
  · rw [h.1]
    norm_num [defaultConfig, sumValues]
  · rw [h.1]
    norm_num [defaultConfig, sumValues]

lemma updateLoop_length (p r : ℚ) (s : Nat) (l : List Wallpaper) :
    ∀ idx, (updateLoop p r s idx l).length = l.length := by
  induction l with
  | nil => intro idx; rfl
  | cons w rest ih =>
    intro idx
    simp [updateLoop, ih]

lemma updateLoop_sum_of_lt (p r : ℚ) (s : Nat) (l : List Wallpaper) :
    ∀ idx, s < idx →
      sumValues (updateLoop p r s idx l) = sumValues l + l.length * r := by
  induction l with
  | nil =>
    intro idx h
    simp [updateLoop, sumValues]
  | cons w rest ih =>
    intro idx h
    rw [updateLoop, if_neg (by omega : ¬ idx = s), sumValues_cons, sumValues_cons,
      ih (idx + 1) (by omega)]
    simp only [List.length_cons]
    push_cast
    ring

lemma updateLoop_sum (p r : ℚ) (s : Nat) (l : List Wallpaper) :
    ∀ idx, idx ≤ s → s < idx + l.length →
      sumValues (updateLoop p r s idx l)
        = sumValues l - p + ((l.length : ℚ) - 1) * r := by
  induction l with
  | nil =>
    intro idx h1 h2
    simp only [List.length_nil, Nat.add_zero] at h2
    omega
  | cons w rest ih =>
    intro idx h1 h2
    by_cases hs : idx = s
    · rw [updateLoop, if_pos hs, sumValues_cons, sumValues_cons,
        updateLoop_sum_of_lt p r s rest (idx + 1) (by omega)]
      simp only [List.length_cons]
      push_cast
      ring
    · rw [updateLoop, if_neg hs, sumValues_cons, sumValues_cons,
        ih (idx + 1) (by omega) (by simp only [List.length_cons] at h2; omega)]
      simp only [List.length_cons]
      push_cast
      ring

/-- C1: with at least two items, a valid selected index, and neither the
shuffle nor the normalization triggering in the call, the zero-sum update
preserves the exact sum of all scores: the selected item loses the penalty
and each of the other n-1 items gains penalty / (n-1). -/
theorem C1_zero_sum_conservation (wcalc : WeightCalculator) (jdraw : Nat → Nat)
    (offs : Nat → ℚ) (walls : List Wallpaper) (i : Nat)
    (hlen : 2 ≤ walls.length) (hi : i < walls.length)
    (hshuffle : ¬(wcalc.config.shuffle_period ≠ 0 ∧
      (wcalc.selection_count + 1) % wcalc.config.shuffle_period = 0))
    (hnorm : sumValues walls / walls.length ≤
      wcalc.config.normalization_threshold) :
    sumValues (update_weights_zero_sum wcalc jdraw offs walls i).2
      = sumValues walls := by
  have hne : walls ≠ [] := by
    intro h0
    rw [h0] at hlen
    simp at hlen
  have he : walls.isEmpty = false := by simpa [List.isEmpty_iff] using hne
  have hoth : ¬ walls.length - 1 = 0 := by omega
  have h2q : (2 : ℚ) ≤ (walls.length : ℚ) := by exact_mod_cast hlen
  have hnz : ((walls.length : ℚ) - 1) ≠ 0 := by linarith
  have hcast : ((walls.length - 1 : ℕ) : ℚ) = (walls.length : ℚ) - 1 := by
    push_cast [Nat.cast_sub (by omega : 1 ≤ walls.length)]
    ring
  have hsum : sumValues (updateLoop wcalc.config.select_penalty
      (wcalc.config.select_penalty / ((walls.length - 1 : ℕ) : ℚ)) i 0 walls)
      = sumValues walls := by
    rw [updateLoop_sum _ _ i walls 0 (Nat.zero_le _) (by omega), hcast,
      mul_comm, div_mul_cancel₀ _ hnz]
    ring
  have hlu : (updateLoop wcalc.config.select_penalty
      (wcalc.config.select_penalty / ((walls.length - 1 : ℕ) : ℚ)) i 0
      walls).length = walls.length := updateLoop_length _ _ _ _ 0
  simp only [update_weights_zero_sum, he, Bool.false_eq_true, if_false,
    if_neg hoth]
  rw [if_neg (by simpa using hshuffle)]
  have hneu : updateLoop wcalc.config.select_penalty
      (wcalc.config.select_penalty / ((walls.length - 1 : ℕ) : ℚ)) i 0
      walls ≠ [] := by
    intro h0
    rw [h0] at hlu
    simp at hlu
    omega
  have heu : (updateLoop wcalc.config.select_penalty
      (wcalc.config.select_penalty / ((walls.length - 1 : ℕ) : ℚ)) i 0
      walls).isEmpty = false := by
    simpa [List.isEmpty_iff] using hneu
  simp only [auto_normalize, heu, Bool.false_eq_true, if_false, hsum, hlu]
  rw [if_neg (not_lt.mpr hnorm)]
  exact hsum

/-- C1 witness: the conservation law at a concrete two-item catalog with the
default configuration and no shuffle or normalization trigger. -/
theorem C1_witness :
    sumValues (update_weights_zero_sum ⟨defaultConfig, 0⟩ (fun k => k)
        (fun _ => 0) [⟨"a", 100, 0, none⟩, ⟨"b", 90, 1, none⟩] 0).2
      = sumValues [⟨"a", 100, 0, none⟩, ⟨"b", 90, 1, none⟩] :=
  C1_zero_sum_conservation ⟨defaultConfig, 0⟩ (fun k => k) (fun _ => 0)
    [⟨"a", 100, 0, none⟩, ⟨"b", 90, 1, none⟩] 0 (by decide) (by decide)
    (by norm_num [defaultConfig]) (by norm_num [sumValues, defaultConfig])

lemma select_with_jitter_fst_perm (draw : Nat → Nat) (walls : List Wallpaper)
    (tolerance : ℚ) :
    List.Perm (select_with_jitter draw walls tolerance).1 walls := by
  by_cases h : walls.isEmpty
  · simp [select_with_jitter, h]
  · simp only [select_with_jitter, h, Bool.false_eq_true, if_false]
    have hp : List.Perm (sortDesc walls) walls := List.mergeSort_perm walls _
    split <;> exact hp

lemma select_with_jitter_idx_lt (draw : Nat → Nat)
    (hdraw : ∀ n, 0 < n → draw n < n) (walls : List Wallpaper)
    (tolerance : ℚ) (i : Nat)
    (h : (select_with_jitter draw walls tolerance).2 = some i) :
    i < walls.length := by
  by_cases he : walls.isEmpty
  · simp [select_with_jitter, he] at h
  · have hlen : (sortDesc walls).length = walls.length :=
      (List.mergeSort_perm walls _).length_eq
    have hnil : walls ≠ [] := by
      simpa [List.isEmpty_iff] using he
    have hpos : 0 < walls.length := List.length_pos.mpr hnil
    simp only [select_with_jitter, he, Bool.false_eq_true, if_false] at h
    set tops := topIndices (sortDesc walls) ((sortDesc walls).headD default).value
      tolerance with htops
    by_cases ht : tops.isEmpty
    · simp only [ht, if_true, Option.some.injEq] at h
      omega
    · simp only [ht, Bool.false_eq_true, if_false, Option.some.injEq] at h
      have htpos : 0 < tops.length :=
        List.length_pos.mpr (by simpa [List.isEmpty_iff] using ht)
      have hmem : tops.getD (draw tops.length) 0 ∈ tops := by
        have hlt : draw tops.length < tops.length := hdraw _ htpos
        rw [List.getD_eq_getElem?_getD, List.getElem?_eq_getElem hlt]
        exact List.getElem_mem hlt
      have := topIndices_lt (sortDesc walls) _ tolerance _ hmem
      omega

/-- C10: both selection functions only reorder the catalog — the output
catalog is a permutation of the input (same multiset of whole records, so no
field of any item changes) — and any returned index is a valid index of the
reordered catalog (whose length equals the input's). -/
theorem C10_frame_effect :
    (∀ (walls : List Wallpaper) (tolerance : ℚ),
      List.Perm (select walls tolerance).1 walls ∧
      ∀ i, (select walls tolerance).2 = some i → i < walls.length) ∧
    (∀ (draw : Nat → Nat) (walls : List Wallpaper) (tolerance : ℚ),
      (∀ n, 0 < n → draw n < n) →
      List.Perm (select_with_jitter draw walls tolerance).1 walls ∧
      ∀ i, (select_with_jitter draw walls tolerance).2 = some i →
        i < walls.length) := by
  constructor
  · intro walls tolerance
    exact ⟨select_fst_perm walls tolerance,
      fun i h => select_idx_lt walls tolerance i h⟩
  · intro draw walls tolerance hdraw
    exact ⟨select_with_jitter_fst_perm draw walls tolerance,
      fun i h => select_with_jitter_idx_lt draw hdraw walls tolerance i h⟩

/-- C10 witness: the frame property instantiated at a concrete two-item
catalog, tolerance 5 and the generator that always draws 0. -/
theorem C10_witness :
    (List.Perm (select [⟨"a", 100, 0, none⟩, ⟨"b", 90, 1, none⟩] 5).1
        [⟨"a", 100, 0, none⟩, ⟨"b", 90, 1, none⟩] ∧
      ∀ i, (select [⟨"a", 100, 0, none⟩, ⟨"b", 90, 1, none⟩] 5).2 = some i →
        i < ([⟨"a", 100, 0, none⟩, ⟨"b", 90, 1, none⟩] :
          List Wallpaper).length) ∧
    (List.Perm
        (select_with_jitter (fun _ => 0)
          [⟨"a", 100, 0, none⟩, ⟨"b", 90, 1, none⟩] 5).1
        [⟨"a", 100, 0, none⟩, ⟨"b", 90, 1, none⟩] ∧
      ∀ i, (select_with_jitter (fun _ => 0)
          [⟨"a", 100, 0, none⟩, ⟨"b", 90, 1, none⟩] 5).2 = some i →
        i < ([⟨"a", 100, 0, none⟩, ⟨"b", 90, 1, none⟩] :
          List Wallpaper).length) :=
  ⟨C10_frame_effect.1 [⟨"a", 100, 0, none⟩, ⟨"b", 90, 1, none⟩] 5,
    C10_frame_effect.2 (fun _ => 0) [⟨"a", 100, 0, none⟩, ⟨"b", 90, 1, none⟩] 5
      (fun _ hn => hn)⟩

lemma cachedLookup_path {m : List Wallpaper} {p : String} {w : Wallpaper}
    (h : cachedLookup m p = some w) : w.path = p := by
  have := List.find?_some h
  simpa using this

lemma foldl_mapInsert (l : List Wallpaper) :
    ∀ acc : List Wallpaper,
      (((acc ++ l).map (fun w => w.path)).Nodup) →
      l.foldl mapInsert acc = acc ++ l := by
  induction l with
  | nil =>
    intro acc _
    simp
  | cons w rest ih =>
    intro acc h
    have h' := h
    rw [List.map_append, List.map_cons] at h'
    have hdisj := (List.nodup_append.mp h').2.2
    have hnotin : (acc.any (fun x => x.path == w.path)) = false := by
      rw [List.any_eq_false]
      intro x hx hbeq
      have hxw : x.path = w.path := by simpa using hbeq
      have hmem1 : x.path ∈ acc.map (fun w => w.path) :=
        List.mem_map_of_mem _ hx
      have hmem2 : x.path ∈ w.path :: rest.map (fun w => w.path) := by
        rw [hxw]
        exact List.mem_cons_self _ _
      exact hdisj hmem1 hmem2
    rw [List.foldl_cons]
    have hins : mapInsert acc w = acc ++ [w] := by
      simp [mapInsert, hnotin]
    rw [hins, ih (acc ++ [w]) (by simpa [List.append_assoc] using h)]
    simp

lemma cachedEntries_self (l : List Wallpaper)
    (h : (l.map (fun w => w.path)).Nodup) : cachedEntries l = l := by
  have := foldl_mapInsert l [] (by simpa using h)
  simpa [cachedEntries] using this

lemma load_and_scan_map_path (config : WeightConfig) (cached : List Wallpaper)
    (scanned : List (String × Nat)) (now : Nat) (prev : List Wallpaper)
    (h : scanned.isEmpty = false) :
    (load_and_scan config cached scanned now prev).map (fun w => w.path)
      = scanned.map Prod.fst := by
  simp only [load_and_scan, h, Bool.false_eq_true, if_false, List.map_map]
  apply List.map_congr_left
  intro f hf
  simp only [Function.comp]
  cases hc : cachedLookup (cachedEntries cached) f.1 with
  | some w => exact cachedLookup_path hc
  | none => rfl

lemma load_and_scan_all_found (config : WeightConfig) (cached : List Wallpaper)
    (scanned : List (String × Nat)) (now : Nat) (prev : List Wallpaper)
    (h : scanned.isEmpty = false)
    (hfound : ∀ f ∈ scanned,
      ∃ w, cachedLookup (cachedEntries cached) f.1 = some w) :
    load_and_scan config cached scanned now prev
      = scanned.map (fun f =>
          (cachedLookup (cachedEntries cached) f.1).getD default) := by
  simp only [load_and_scan, h, Bool.false_eq_true, if_false]
  apply List.map_congr_left
  intro f hf
  obtain ⟨w, hw⟩ := hfound f hf
  rw [show cachedLookup (cachedEntries cached) f.1 = some w from hw]
  rfl

lemma lookup_roundtrip :
    ∀ (scanned : List (String × Nat)) (L : List Wallpaper),
      L.map (fun w => w.path) = scanned.map Prod.fst →
      (scanned.map Prod.fst).Nodup →
      scanned.map (fun f => (cachedLookup L f.1).getD default) = L := by
  intro scanned
  induction scanned with
  | nil =>
    intro L hmap _
    simp only [List.map_nil, List.map_eq_nil_iff] at hmap
    simp [hmap]
  | cons f fs ih =>
    intro L hmap hnodup
    cases L with
    | nil => simp at hmap
    | cons w ws =>
      simp only [List.map_cons, List.cons.injEq] at hmap
      obtain ⟨hw, hws⟩ := hmap
      rw [List.map_cons] at hnodup
      obtain ⟨hn1, hn2⟩ := List.nodup_cons.mp hnodup
      rw [List.map_cons]
      congr 1
      · rw [cachedLookup, List.find?_cons_of_pos _ (by simpa using hw)]
        rfl
      · have hstep : ∀ f2 ∈ fs,
            (cachedLookup (w :: ws) f2.1).getD default
              = (cachedLookup ws f2.1).getD default := by
          intro f2 hf2
          have hne : w.path ≠ f2.1 := by
            rw [hw]
            intro hcontra
            exact hn1 (hcontra ▸ List.mem_map_of_mem _ hf2)
          rw [cachedLookup, List.find?_cons_of_neg _ (by simpa using hne)]
          rfl
        rw [List.map_congr_left hstep]
        exact ih ws hws hn2

/-- C8: merging the same unchanged scan result twice, the second merge given
the first merge's output as its persisted catalog, reproduces the first
merge's catalog exactly — every file is found in the persisted items and
reused verbatim, none is re-initialized as a new discovery. -/
theorem C8_merge_idempotent (config : WeightConfig) (cached prev : List Wallpaper)
    (scanned : List (String × Nat)) (now now2 : Nat)
    (hne : scanned ≠ []) (hnodup : (scanned.map Prod.fst).Nodup) :
    load_and_scan config (load_and_scan config cached scanned now prev)
        scanned now2 (load_and_scan config cached scanned now prev)
      = load_and_scan config cached scanned now prev := by
  have hs : scanned.isEmpty = false := by simpa [List.isEmpty_iff] using hne
  have hA : (load_and_scan config cached scanned now prev).map
      (fun w => w.path) = scanned.map Prod.fst :=
    load_and_scan_map_path config cached scanned now prev hs
  have hnodupR1 : ((load_and_scan config cached scanned now prev).map
      (fun w => w.path)).Nodup := by
    rw [hA]
    exact hnodup
  have hEnt : cachedEntries (load_and_scan config cached scanned now prev)
      = load_and_scan config cached scanned now prev :=
    cachedEntries_self _ hnodupR1
  have hfound : ∀ f ∈ scanned, ∃ w,
      cachedLookup (cachedEntries (load_and_scan config cached scanned now prev))
        f.1 = some w := by
    intro f hf
    rw [hEnt]
    have hmem : f.1 ∈ (load_and_scan config cached scanned now prev).map
        (fun w => w.path) := by
      rw [hA]
      exact List.mem_map_of_mem _ hf
    obtain ⟨x, hx, hxp⟩ := List.mem_map.mp hmem
    have hsome : ((load_and_scan config cached scanned now prev).find?
        (fun w => w.path == f.1)).isSome := by
      rw [List.find?_isSome]
      exact ⟨x, hx, by simpa using hxp⟩
    exact Option.isSome_iff_exists.mp hsome
  rw [load_and_scan_all_found config _ scanned now2 _ hs hfound, hEnt]
  exact lookup_roundtrip scanned _ hA hnodup

/-- C8 witness: idempotence at a concrete two-file scan starting from an
empty store. -/
theorem C8_witness :
    load_and_scan defaultConfig
        (load_and_scan defaultConfig [] [("a", 5), ("b", 3)] 10 [])
        [("a", 5), ("b", 3)] 20
        (load_and_scan defaultConfig [] [("a", 5), ("b", 3)] 10 [])
      = load_and_scan defaultConfig [] [("a", 5), ("b", 3)] 10 [] :=
  C8_merge_idempotent defaultConfig [] [] [("a", 5), ("b", 3)] 10 20
    (by decide) (by decide)

lemma getD_eq_getElem_of_lt (l : List Nat) (k : Nat) (h : k < l.length) :
    l.getD k 0 = l[k] := by
  rw [List.getD_eq_getElem?_getD, List.getElem?_eq_getElem h]
  rfl

lemma swapIdx_length (l : List Nat) (i j : Nat) :
    (swapIdx l i j).length = l.length := by
  simp [swapIdx]

lemma swapIdx_perm (l : List Nat) (i j : Nat) (hi : i < l.length)
    (hj : j < l.length) : List.Perm (swapIdx l i j) l := by
  rw [List.perm_iff_count]
  intro a
  have hxl : l[i] = a → 1 ≤ l.count a := fun h =>
    List.count_pos_iff.mpr (h ▸ List.getElem_mem hi)
  have hyl : l[j] = a → 1 ≤ l.count a := fun h =>
    List.count_pos_iff.mpr (h ▸ List.getElem_mem hj)
  have hj' : j < (l.set i l[j]).length := by
    rw [List.length_set]
    exact hj
  rw [swapIdx, getD_eq_getElem_of_lt l i hi, getD_eq_getElem_of_lt l j hj,
    List.count_set _ _ _ _ hj', List.count_set _ _ _ _ hi]
  have hsetj : (l.set i l[j])[j] = l[j] := by
    rw [List.getElem_set]
    split <;> simp_all
  rw [hsetj]
  by_cases hx : l[i] = a <;> by_cases hy : l[j] = a <;>
    simp [hx, hy] <;> omega

lemma fisherYatesGo_perm (jdraw : Nat → Nat) (hj : ∀ k, jdraw k ≤ k) :
    ∀ (m : Nat) (l : List Nat), m < l.length →
      List.Perm (fisherYatesGo jdraw m l) l := by
  intro m
  induction m with
  | zero =>
    intro l _
    exact List.Perm.refl l
  | succ i ih =>
    intro l hm
    rw [fisherYatesGo]
    have hjlt : jdraw (i + 1) < l.length := lt_of_le_of_lt (hj (i + 1)) hm
    have hswap : List.Perm (swapIdx l (i + 1) (jdraw (i + 1))) l :=
      swapIdx_perm l (i + 1) (jdraw (i + 1)) hm hjlt
    have hlen : (swapIdx l (i + 1) (jdraw (i + 1))).length = l.length :=
      swapIdx_length l _ _
    exact (ih _ (by omega)).trans hswap

lemma shuffleStep_length (b : ℚ) (o : Nat → ℚ) (ind : List Nat)
    (acc : List Wallpaper) (i : Nat) :
    (shuffleStep b o ind acc i).length = acc.length := by
  simp only [shuffleStep]
  cases hA : acc[ind.getD i 0]? <;> simp

lemma shuffleFold_length (b : ℚ) (o : Nat → ℚ) (ind : List Nat) :
    ∀ (c : Nat) (l : List Wallpaper),
      ((List.range c).foldl (shuffleStep b o ind) l).length = l.length := by
  intro c
  induction c with
  | zero =>
    intro l
    simp
  | succ c ih =>
    intro l
    rw [List.range_succ, List.foldl_append, List.foldl_cons, List.foldl_nil,
      shuffleStep_length]
    exact ih l

lemma shuffleStep_get_ne (b : ℚ) (o : Nat → ℚ) (ind : List Nat)
    (acc : List Wallpaper) (i p : Nat) (hne : ind.getD i 0 ≠ p) :
    (shuffleStep b o ind acc i)[p]? = acc[p]? := by
  simp only [shuffleStep]
  cases hA : acc[ind.getD i 0]? with
  | some w => exact List.getElem?_set_ne hne
  | none => rfl

lemma shuffleFold_get_of_notin (b : ℚ) (o : Nat → ℚ) (ind : List Nat) :
    ∀ (c : Nat) (l : List Wallpaper) (p : Nat),
      (∀ k, k < c → ind.getD k 0 ≠ p) →
      ((List.range c).foldl (shuffleStep b o ind) l)[p]? = l[p]? := by
  intro c
  induction c with
  | zero =>
    intro l p _
    simp
  | succ c ih =>
    intro l p hk
    rw [List.range_succ, List.foldl_append, List.foldl_cons, List.foldl_nil,
      shuffleStep_get_ne _ _ _ _ _ _ (hk c (by omega))]
    exact ih l p (fun k hkc => hk k (by omega))

lemma shuffleFold_get_of_hit (b : ℚ) (o : Nat → ℚ) (ind : List Nat)
    (l : List Wallpaper) (k : Nat) (hlt : ind.getD k 0 < l.length) :
    ∀ c, k < c →
      (∀ i j, i < c → j < c → i ≠ j → ind.getD i 0 ≠ ind.getD j 0) →
      ((List.range c).foldl (shuffleStep b o ind) l)[ind.getD k 0]?
        = (l[ind.getD k 0]?).map
            (fun w => { w with value := b * (1 + o k), skip_streak := 0 }) := by
  intro c
  induction c with
  | zero =>
    intro h _
    omega
  | succ c ih =>
    intro hk hinj
    rw [List.range_succ, List.foldl_append, List.foldl_cons, List.foldl_nil]
    by_cases hkc : k = c
    · subst hkc
      have hunt : ((List.range k).foldl (shuffleStep b o ind) l)[ind.getD k 0]?
          = l[ind.getD k 0]? :=
        shuffleFold_get_of_notin b o ind k l (ind.getD k 0)
          (fun j hj => hinj j k (by omega) (by omega) (by omega))
      have hlen : ((List.range k).foldl (shuffleStep b o ind) l).length
          = l.length := shuffleFold_length b o ind k l
      simp only [shuffleStep]
      rw [hunt, List.getElem?_eq_getElem hlt]
      exact List.getElem?_set_self (by omega)
    · rw [shuffleStep_get_ne _ _ _ _ _ _
        (hinj c k (by omega) (by omega) (by omega))]
      exact ih (by omega) (fun i j hi hjj hij => hinj i j (by omega) (by omega) hij)

/-- C5: under the reshuffle trigger's preconditions (non-empty catalog,
positive intensity, non-negative base, faithful generator draws), the
reshuffle resets exactly min(ceil(n*s), n) items at pairwise-distinct valid
indices (the prefix of the Fisher-Yates permutation): each reset item's
score becomes base * (1 + u) with u the iteration's draw from [-0.2, 0.2),
hence within base * [0.8, 1.2], and its streak becomes 0, while every item
not chosen keeps its score and streak. -/
theorem C5_reshuffle_reset (wcalc : WeightCalculator) (jdraw : Nat → Nat)
    (offs : Nat → ℚ) (walls : List Wallpaper)
    (hne : walls ≠ [])
    (hint : 0 < wcalc.config.shuffle_intensity)
    (hbase : 0 ≤ wcalc.config.base)
    (hj : ∀ k, jdraw k ≤ k)
    (hoffs : ∀ k, -(1 / 5) ≤ offs k ∧ offs k < 1 / 5) :
    ((fisherYatesGo jdraw (walls.length - 1) (List.range walls.length)).take (min (Int.toNat ⌈(walls.length : ℚ) * wcalc.config.shuffle_intensity⌉) walls.length)).Nodup ∧
    ((fisherYatesGo jdraw (walls.length - 1) (List.range walls.length)).take (min (Int.toNat ⌈(walls.length : ℚ) * wcalc.config.shuffle_intensity⌉) walls.length)).length = (min (Int.toNat ⌈(walls.length : ℚ) * wcalc.config.shuffle_intensity⌉) walls.length) ∧
    (∀ p ∈ (fisherYatesGo jdraw (walls.length - 1) (List.range walls.length)).take (min (Int.toNat ⌈(walls.length : ℚ) * wcalc.config.shuffle_intensity⌉) walls.length), p < (walls).length) ∧
    (∀ k, k < (min (Int.toNat ⌈(walls.length : ℚ) * wcalc.config.shuffle_intensity⌉) walls.length) →
      (((apply_shuffle wcalc jdraw offs walls)).getD ((fisherYatesGo jdraw (walls.length - 1) (List.range walls.length)).getD k 0) default).value
          = (wcalc.config.base) * (1 + (offs) k) ∧
      (((apply_shuffle wcalc jdraw offs walls)).getD ((fisherYatesGo jdraw (walls.length - 1) (List.range walls.length)).getD k 0) default).skip_streak = 0 ∧
      (wcalc.config.base) * (8 / 10)
          ≤ (((apply_shuffle wcalc jdraw offs walls)).getD ((fisherYatesGo jdraw (walls.length - 1) (List.range walls.length)).getD k 0) default).value ∧
      (((apply_shuffle wcalc jdraw offs walls)).getD ((fisherYatesGo jdraw (walls.length - 1) (List.range walls.length)).getD k 0) default).value
          ≤ (wcalc.config.base) * (12 / 10)) ∧
    (∀ p, p < (walls).length → p ∉ (fisherYatesGo jdraw (walls.length - 1) (List.range walls.length)).take (min (Int.toNat ⌈(walls.length : ℚ) * wcalc.config.shuffle_intensity⌉) walls.length) →
      ((apply_shuffle wcalc jdraw offs walls)).getD p default = (walls).getD p default) := by
  have hn : 0 < walls.length := List.length_pos.mpr hne
  have hnq : (0 : ℚ) < (walls.length : ℚ) := by exact_mod_cast hn
  have hperm : List.Perm (fisherYatesGo jdraw (walls.length - 1) (List.range walls.length)) (List.range walls.length) :=
    fisherYatesGo_perm jdraw hj (walls.length - 1) (List.range walls.length)
      (by rw [List.length_range]; omega)
  have hlenInd : (fisherYatesGo jdraw (walls.length - 1) (List.range walls.length)).length = walls.length :=
    hperm.length_eq.trans (List.length_range _)
  have hNodup : (fisherYatesGo jdraw (walls.length - 1) (List.range walls.length)).Nodup := hperm.symm.nodup (List.nodup_range _)
  have hmem : ∀ x ∈ (fisherYatesGo jdraw (walls.length - 1) (List.range walls.length)), x < walls.length := fun x hx =>
    List.mem_range.mp (hperm.mem_iff.mp hx)
  have hcle : (min (Int.toNat ⌈(walls.length : ℚ) * wcalc.config.shuffle_intensity⌉) walls.length) ≤ walls.length := Nat.min_le_right _ _
  have hcpos : 0 < (min (Int.toNat ⌈(walls.length : ℚ) * wcalc.config.shuffle_intensity⌉) walls.length) := by
    have hms : (0 : ℚ) < (walls.length : ℚ) * wcalc.config.shuffle_intensity :=
      mul_pos hnq hint
    have hceil : 0 < ⌈(walls.length : ℚ) * wcalc.config.shuffle_intensity⌉ :=
      Int.ceil_pos.mpr hms
    have htn : 0 < Int.toNat ⌈(walls.length : ℚ) * wcalc.config.shuffle_intensity⌉ := by
      omega
    omega
  have hinj : ∀ i j, i < (min (Int.toNat ⌈(walls.length : ℚ) * wcalc.config.shuffle_intensity⌉) walls.length) → j < (min (Int.toNat ⌈(walls.length : ℚ) * wcalc.config.shuffle_intensity⌉) walls.length) → i ≠ j →
      (fisherYatesGo jdraw (walls.length - 1) (List.range walls.length)).getD i 0 ≠ (fisherYatesGo jdraw (walls.length - 1) (List.range walls.length)).getD j 0 := by
    intro i j hi hjj hij heq
    have hi2 : i < (fisherYatesGo jdraw (walls.length - 1) (List.range walls.length)).length := by omega
    have hj2 : j < (fisherYatesGo jdraw (walls.length - 1) (List.range walls.length)).length := by omega
    rw [getD_eq_getElem_of_lt _ _ hi2, getD_eq_getElem_of_lt _ _ hj2] at heq
    exact hij (hNodup.getElem_inj_iff.mp heq)
  have hcond : ¬(walls.isEmpty = true ∨ wcalc.config.shuffle_intensity ≤ 0) := by
    rw [not_or]
    exact ⟨by simpa [List.isEmpty_iff] using hne, not_le.mpr hint⟩
  have hcne : ¬((min (Int.toNat ⌈(walls.length : ℚ) * wcalc.config.shuffle_intensity⌉) walls.length) = 0) := by omega
  have happ : (apply_shuffle wcalc jdraw offs walls)
      = (List.range (min (Int.toNat ⌈(walls.length : ℚ) * wcalc.config.shuffle_intensity⌉) walls.length)).foldl
          (shuffleStep wcalc.config.base offs (fisherYatesGo jdraw (walls.length - 1) (List.range walls.length))) walls := by
    simp only [apply_shuffle]
    rw [if_neg hcond, if_neg hcne]
  refine ⟨List.Nodup.sublist (List.take_sublist _ _) hNodup, ?_, ?_, ?_, ?_⟩
  · rw [List.length_take, hlenInd]
    omega
  · intro p hp
    exact hmem p ((List.take_sublist _ _).mem hp)
  · intro k hk
    have hk2 : k < (fisherYatesGo jdraw (walls.length - 1) (List.range walls.length)).length := by omega
    have hidxmem : (fisherYatesGo jdraw (walls.length - 1) (List.range walls.length)).getD k 0 ∈ (fisherYatesGo jdraw (walls.length - 1) (List.range walls.length)) := by
      rw [getD_eq_getElem_of_lt _ _ hk2]
      exact List.getElem_mem hk2
    have hidx : (fisherYatesGo jdraw (walls.length - 1) (List.range walls.length)).getD k 0 < walls.length := hmem _ hidxmem
    have hres : (apply_shuffle wcalc jdraw offs walls)[(fisherYatesGo jdraw (walls.length - 1) (List.range walls.length)).getD k 0]?
        = (walls[(fisherYatesGo jdraw (walls.length - 1) (List.range walls.length)).getD k 0]?).map
            (fun w =>
              { w with
                value := wcalc.config.base * (1 + offs k)
                skip_streak := 0 }) := by
      rw [happ]
      exact shuffleFold_get_of_hit _ _ _ _ k hidx (min (Int.toNat ⌈(walls.length : ℚ) * wcalc.config.shuffle_intensity⌉) walls.length) hk hinj
    obtain ⟨w, hw⟩ : ∃ w, walls[(fisherYatesGo jdraw (walls.length - 1) (List.range walls.length)).getD k 0]? = some w :=
      ⟨_, List.getElem?_eq_getElem hidx⟩
    have hgd : (apply_shuffle wcalc jdraw offs walls).getD ((fisherYatesGo jdraw (walls.length - 1) (List.range walls.length)).getD k 0) default
        = { w with
            value := wcalc.config.base * (1 + offs k)
            skip_streak := 0 } := by
      rw [List.getD_eq_getElem?_getD, hres, hw]
      rfl
    obtain ⟨ho1, ho2⟩ := hoffs k
    refine ⟨by rw [hgd], by rw [hgd], ?_, ?_⟩
    · rw [hgd]
      exact mul_le_mul_of_nonneg_left (by linarith) hbase
    · rw [hgd]
      exact mul_le_mul_of_nonneg_left (by linarith) hbase
  · intro p hp hnp
    have hknotp : ∀ k2, k2 < (min (Int.toNat ⌈(walls.length : ℚ) * wcalc.config.shuffle_intensity⌉) walls.length) → (fisherYatesGo jdraw (walls.length - 1) (List.range walls.length)).getD k2 0 ≠ p := by
      intro k2 hk2c heq
      apply hnp
      rw [← heq]
      have hk2t : k2 < (((fisherYatesGo jdraw (walls.length - 1) (List.range walls.length))).take (min (Int.toNat ⌈(walls.length : ℚ) * wcalc.config.shuffle_intensity⌉) walls.length)).length := by
        rw [List.length_take, hlenInd]
        omega
      have hmemk := List.getElem_mem hk2t
      rw [List.getElem_take] at hmemk
      rw [getD_eq_getElem_of_lt _ _ (show k2 < (fisherYatesGo jdraw (walls.length - 1) (List.range walls.length)).length by omega)]
      exact hmemk
    rw [List.getD_eq_getElem?_getD, List.getD_eq_getElem?_getD, happ,
      shuffleFold_get_of_notin _ _ _ (min (Int.toNat ⌈(walls.length : ℚ) * wcalc.config.shuffle_intensity⌉) walls.length) walls p hknotp]

/-- C5 witness: the reshuffle reset statement instantiated at a concrete
two-item catalog, the default configuration, the identity draw function and
zero offsets. -/
theorem C5_witness :
    ((fisherYatesGo (fun k => k) ((([⟨"a", 100, 0, none⟩, ⟨"b", 90, 1, none⟩] : List Wallpaper)).length - 1) (List.range (([⟨"a", 100, 0, none⟩, ⟨"b", 90, 1, none⟩] : List Wallpaper)).length)).take (min (Int.toNat ⌈(((([⟨"a", 100, 0, none⟩, ⟨"b", 90, 1, none⟩] : List Wallpaper)).length) : ℚ) * (⟨defaultConfig, 0⟩ : WeightCalculator).config.shuffle_intensity⌉) (([⟨"a", 100, 0, none⟩, ⟨"b", 90, 1, none⟩] : List Wallpaper)).length)).Nodup ∧
    ((fisherYatesGo (fun k => k) ((([⟨"a", 100, 0, none⟩, ⟨"b", 90, 1, none⟩] : List Wallpaper)).length - 1) (List.range (([⟨"a", 100, 0, none⟩, ⟨"b", 90, 1, none⟩] : List Wallpaper)).length)).take (min (Int.toNat ⌈(((([⟨"a", 100, 0, none⟩, ⟨"b", 90, 1, none⟩] : List Wallpaper)).length) : ℚ) * (⟨defaultConfig, 0⟩ : WeightCalculator).config.shuffle_intensity⌉) (([⟨"a", 100, 0, none⟩, ⟨"b", 90, 1, none⟩] : List Wallpaper)).length)).length = (min (Int.toNat ⌈(((([⟨"a", 100, 0, none⟩, ⟨"b", 90, 1, none⟩] : List Wallpaper)).length) : ℚ) * (⟨defaultConfig, 0⟩ : WeightCalculator).config.shuffle_intensity⌉) (([⟨"a", 100, 0, none⟩, ⟨"b", 90, 1, none⟩] : List Wallpaper)).length) ∧
    (∀ p ∈ (fisherYatesGo (fun k => k) ((([⟨"a", 100, 0, none⟩, ⟨"b", 90, 1, none⟩] : List Wallpaper)).length - 1) (List.range (([⟨"a", 100, 0, none⟩, ⟨"b", 90, 1, none⟩] : List Wallpaper)).length)).take (min (Int.toNat ⌈(((([⟨"a", 100, 0, none⟩, ⟨"b", 90, 1, none⟩] : List Wallpaper)).length) : ℚ) * (⟨defaultConfig, 0⟩ : WeightCalculator).config.shuffle_intensity⌉) (([⟨"a", 100, 0, none⟩, ⟨"b", 90, 1, none⟩] : List Wallpaper)).length), p < (([⟨"a", 100, 0, none⟩, ⟨"b", 90, 1, none⟩] : List Wallpaper)).length) ∧
    (∀ k, k < (min (Int.toNat ⌈(((([⟨"a", 100, 0, none⟩, ⟨"b", 90, 1, none⟩] : List Wallpaper)).length) : ℚ) * (⟨defaultConfig, 0⟩ : WeightCalculator).config.shuffle_intensity⌉) (([⟨"a", 100, 0, none⟩, ⟨"b", 90, 1, none⟩] : List Wallpaper)).length) →
      (((apply_shuffle (⟨defaultConfig, 0⟩ : WeightCalculator) (fun k => k) (fun _ => (0 : ℚ)) ([⟨"a", 100, 0, none⟩, ⟨"b", 90, 1, none⟩] : List Wallpaper))).getD ((fisherYatesGo (fun k => k) ((([⟨"a", 100, 0, none⟩, ⟨"b", 90, 1, none⟩] : List Wallpaper)).length - 1) (List.range (([⟨"a", 100, 0, none⟩, ⟨"b", 90, 1, none⟩] : List Wallpaper)).length)).getD k 0) default).value
          = ((⟨defaultConfig, 0⟩ : WeightCalculator).config.base) * (1 + ((fun _ => (0 : ℚ))) k) ∧
      (((apply_shuffle (⟨defaultConfig, 0⟩ : WeightCalculator) (fun k => k) (fun _ => (0 : ℚ)) ([⟨"a", 100, 0, none⟩, ⟨"b", 90, 1, none⟩] : List Wallpaper))).getD ((fisherYatesGo (fun k => k) ((([⟨"a", 100, 0, none⟩, ⟨"b", 90, 1, none⟩] : List Wallpaper)).length - 1) (List.range (([⟨"a", 100, 0, none⟩, ⟨"b", 90, 1, none⟩] : List Wallpaper)).length)).getD k 0) default).skip_streak = 0 ∧
      ((⟨defaultConfig, 0⟩ : WeightCalculator).config.base) * (8 / 10)
          ≤ (((apply_shuffle (⟨defaultConfig, 0⟩ : WeightCalculator) (fun k => k) (fun _ => (0 : ℚ)) ([⟨"a", 100, 0, none⟩, ⟨"b", 90, 1, none⟩] : List Wallpaper))).getD ((fisherYatesGo (fun k => k) ((([⟨"a", 100, 0, none⟩, ⟨"b", 90, 1, none⟩] : List Wallpaper)).length - 1) (List.range (([⟨"a", 100, 0, none⟩, ⟨"b", 90, 1, none⟩] : List Wallpaper)).length)).getD k 0) default).value ∧
      (((apply_shuffle (⟨defaultConfig, 0⟩ : WeightCalculator) (fun k => k) (fun _ => (0 : ℚ)) ([⟨"a", 100, 0, none⟩, ⟨"b", 90, 1, none⟩] : List Wallpaper))).getD ((fisherYatesGo (fun k => k) ((([⟨"a", 100, 0, none⟩, ⟨"b", 90, 1, none⟩] : List Wallpaper)).length - 1) (List.range (([⟨"a", 100, 0, none⟩, ⟨"b", 90, 1, none⟩] : List Wallpaper)).length)).getD k 0) default).value
          ≤ ((⟨defaultConfig, 0⟩ : WeightCalculator).config.base) * (12 / 10)) ∧
    (∀ p, p < (([⟨"a", 100, 0, none⟩, ⟨"b", 90, 1, none⟩] : List Wallpaper)).length → p ∉ (fisherYatesGo (fun k => k) ((([⟨"a", 100, 0, none⟩, ⟨"b", 90, 1, none⟩] : List Wallpaper)).length - 1) (List.range (([⟨"a", 100, 0, none⟩, ⟨"b", 90, 1, none⟩] : List Wallpaper)).length)).take (min (Int.toNat ⌈(((([⟨"a", 100, 0, none⟩, ⟨"b", 90, 1, none⟩] : List Wallpaper)).length) : ℚ) * (⟨defaultConfig, 0⟩ : WeightCalculator).config.shuffle_intensity⌉) (([⟨"a", 100, 0, none⟩, ⟨"b", 90, 1, none⟩] : List Wallpaper)).length) →
      ((apply_shuffle (⟨defaultConfig, 0⟩ : WeightCalculator) (fun k => k) (fun _ => (0 : ℚ)) ([⟨"a", 100, 0, none⟩, ⟨"b", 90, 1, none⟩] : List Wallpaper))).getD p default = (([⟨"a", 100, 0, none⟩, ⟨"b", 90, 1, none⟩] : List Wallpaper)).getD p default) :=
  C5_reshuffle_reset (⟨defaultConfig, 0⟩ : WeightCalculator) (fun k => k) (fun _ => (0 : ℚ))
    [⟨"a", 100, 0, none⟩, ⟨"b", 90, 1, none⟩] (by decide)
    (by norm_num [defaultConfig]) (by norm_num [defaultConfig])
    (fun k => Nat.le_refl k) (fun k => by norm_num)

end LianWall
